import Mathlib

/-!
Verification of the hybrid rate limiter in `pkg/static_limiter/limiter.go`
(token bucket + sliding window counter over a shared Redis store) and of the
adaptive throttling factor in `pkg/adaptive/monitor.go`.

The embedding models one identifier's slice of the store (all state is
partitioned by identifier and the code never mixes identifiers).  Time is an
integer count of nanoseconds on the Unix axis, exactly the representation the
Go code manipulates (`UnixNano`, `Duration.Nanoseconds`).  Stored values are
either a decimal integer (everything the limiter itself writes) or an
unparseable string.  Store errors are injected through explicit flags, one per
store round-trip, mirroring fault injection against the Redis client.
-/

namespace GoRateLimiter

/-- A value held under a Redis key: an integer (the only thing the limiter
writes) or some other, unparseable string. -/
inductive Val where
  | vint (n : Int)
  | vbad
deriving DecidableEq

/-- go-redis `cmd.Int64()` with its error discarded (`x, _ := cmd.Int64()`):
a missing key or an unparseable value both yield 0. -/
def readInt64 : Option Val → Int
  | none => 0
  | some (.vint n) => n
  | some .vbad => 0

/-- The `Limiter` configuration fields (`BucketCapacity`, `RefillRate`,
`SWCLimit`, `SWCWindow`); durations are in nanoseconds. -/
structure Config where
  bucketCapacity : Int
  refillRate : Int
  swcLimit : Int
  swcWindow : Int
deriving DecidableEq

/-- The configuration installed by `NewLimiter`: burst 10, one token per 6 s,
100 requests per 60 min window. -/
def defaultConfig : Config :=
  { bucketCapacity := 10
    refillRate := 6000000000
    swcLimit := 100
    swcWindow := 3600000000000 }

def nsPerSecond : Int := 1000000000

/-- `time.Minute` in nanoseconds. -/
def minuteNs : Int := 60000000000

/-- `time.Hour * 2` in nanoseconds, the bucket keys' expiration horizon. -/
def twoHoursNs : Int := 7200000000000

/-- Offset between Go's internal time axis (nanoseconds since January 1,
year 1) and the Unix epoch: 62135596800 s. -/
def unixToInternalNs : Int := 62135596800000000000

/-- Go `t.Truncate(d)`: round `t` down to a multiple of `d` since the zero
time (year 1), stated here on the Unix-nanosecond axis; `d <= 0` returns `t`
unchanged, as in Go. -/
def truncateTime (t d : Int) : Int :=
  if d ≤ 0 then t else d * Int.fdiv (t + unixToInternalNs) d - unixToInternalNs

/-- Go `t.Unix()`: whole seconds (rounded down) of a Unix-nanosecond instant. -/
def unixSec (t : Int) : Int := Int.fdiv t nsPerSecond

/-- The epoch component of `Limiter.Key`: the window-start instant
`windowTime.Truncate(l.SWCWindow)` as Unix seconds.  Together with the fixed
textual namespace this determines the window counter's Redis key, so two
instants address the same counter iff this number agrees. -/
def swcKeyEpoch (cfg : Config) (t : Int) : Int := unixSec (truncateTime t cfg.swcWindow)

/-- The two bucket keys (`tb_tokens:<id>`, `tb_refill:<id>`) of one
identifier. -/
structure BucketState where
  tokens : Option Val
  lastRefill : Option Val
deriving DecidableEq

/-- `refillBucket`: read both bucket keys in one pipeline, derive the refilled
count, write both keys (plus their 2 h expirations) in a second pipeline.
`readErr` / `writeErr` inject a non-`redis.Nil` error into the respective
pipeline `Exec`; `none` is the `(0, err)` early return.  Division is Go's
truncated `int64` division (`Int.tdiv`). -/
def refillBucket (cfg : Config) (st : BucketState) (now : Int)
    (readErr writeErr : Bool) : Option (Int × BucketState) :=
  if readErr then none else
  let currentTokens := if st.tokens.isNone then cfg.bucketCapacity else readInt64 st.tokens
  let lastRefillTimeUnix := if st.lastRefill.isNone then now else readInt64 st.lastRefill
  let timeElapsed := now - lastRefillTimeUnix
  let tokensToAdd := Int.tdiv timeElapsed cfg.refillRate
  let newTokens := currentTokens + tokensToAdd
  let newTokens := if newTokens > cfg.bucketCapacity then cfg.bucketCapacity else newTokens
  let newLastRefillTime := lastRefillTimeUnix + tokensToAdd * cfg.refillRate
  if writeErr then none else
  some (newTokens, ⟨some (.vint newTokens), some (.vint newLastRefillTime)⟩)

/-- Window counters of one identifier, keyed by `swcKeyEpoch`. -/
abbrev KVMap := List (Int × Val)

def lookupKV : KVMap → Int → Option Val
  | [], _ => none
  | (k1, v) :: rest, k => if k1 = k then some v else lookupKV rest k

def setKV : KVMap → Int → Val → KVMap
  | [], k, v => [(k, v)]
  | (k1, v1) :: rest, k, v =>
    if k1 = k then (k1, v) :: rest else (k1, v1) :: setKV rest k v

/-- Redis `INCR`, result discarded by the caller: a missing key becomes 1, an
integer is incremented, and on an unparseable value the command errors and the
store is unchanged. -/
def incrKV (m : KVMap) (k : Int) : KVMap :=
  match lookupKV m k with
  | none => setKV m k (.vint 1)
  | some (.vint n) => setKV m k (.vint (n + 1))
  | some .vbad => m

/-- Expirations of the window-counter keys, in nanoseconds. -/
abbrev TTLMap := List (Int × Int)

def setTTL : TTLMap → Int → Int → TTLMap
  | [], k, ttl => [(k, ttl)]
  | (k1, t1) :: rest, k, ttl =>
    if k1 = k then (k1, ttl) :: rest else (k1, t1) :: setTTL rest k ttl

/-- Redis `DECR` on the token key, result discarded: a missing key counts as
0, an integer is decremented, an unparseable value leaves the store
unchanged. -/
def decrTokens (b : BucketState) : BucketState :=
  match b.tokens with
  | none => { b with tokens := some (.vint (-1)) }
  | some (.vint n) => { b with tokens := some (.vint (n - 1)) }
  | some .vbad => b

/-- One identifier's slice of the store: the two bucket keys with their
expirations, and the window counters with theirs. -/
structure LimState where
  bucket : BucketState
  tokensTTL : Option Int
  refillTTL : Option Int
  swc : KVMap
  swcTTL : TTLMap
deriving DecidableEq

/-- The store state for an identifier never seen before. -/
def freshState : LimState :=
  { bucket := ⟨none, none⟩, tokensTTL := none, refillTTL := none
    swc := [], swcTTL := [] }

/-- Injected store errors, one flag per round-trip `Allow` can make: the
bucket pipeline read, the bucket pipeline write, the window-counter pipeline
read. -/
structure ErrFlags where
  tbRead : Bool
  tbWrite : Bool
  swcRead : Bool
deriving DecidableEq

def noErr : ErrFlags := ⟨false, false, false⟩

/-- The sliding-window estimate computed inside `Allow`:
`int64(float64(previousCount)*overlap) + currentCount` with
`overlap = 1 - elapsed/window`.  The float64 arithmetic is modelled exactly
over the rationals: `previousCount * overlap = previousCount * (window -
elapsed) / window`, and converting a float to `int64` truncates toward zero,
which for an exact rational is `Int.tdiv` of its numerator by its (positive)
denominator. -/
def swcEstimate (cfg : Config) (swc : KVMap) (now : Int) : Int :=
  let currentKey := swcKeyEpoch cfg now
  let previousKey := swcKeyEpoch cfg (now - cfg.swcWindow)
  let timeElapsedInCurrentWindow := now - truncateTime now cfg.swcWindow
  let currentCount := readInt64 (lookupKV swc currentKey)
  let previousCount := readInt64 (lookupKV swc previousKey)
  Int.tdiv (previousCount * (cfg.swcWindow - timeElapsedInCurrentWindow)) cfg.swcWindow
    + currentCount

/-- `Limiter.Allow`: refill (fail open on a store error), deny when no token
is left, estimate the rolling window (fail open on a store error), and on an
estimate under the limit commit — `DECR` the token key, `INCR` the current
window counter, refresh that counter's expiration to window + 1 min. -/
def Allow (cfg : Config) (e : ErrFlags) (st : LimState) (now : Int) : Bool × LimState :=
  match refillBucket cfg st.bucket now e.tbRead e.tbWrite with
  | none => (true, st)
  | some (currentTokens, newBucket) =>
    let st1 : LimState :=
      { st with bucket := newBucket
                tokensTTL := some twoHoursNs, refillTTL := some twoHoursNs }
    if currentTokens < 1 then (false, st1)
    else if e.swcRead then (true, st1)
    else if swcEstimate cfg st.swc now < cfg.swcLimit then
      let currentKey := swcKeyEpoch cfg now
      (true, { st1 with bucket := decrTokens st1.bucket
                        swc := incrKV st1.swc currentKey
                        swcTTL := setTTL st1.swcTTL currentKey (cfg.swcWindow + minuteNs) })
    else (false, st1)

/-- `n` consecutive `Allow` calls at one instant: the list of decisions and
the final store state. -/
def allowN (cfg : Config) (e : ErrFlags) (st : LimState) (now : Int) :
    Nat → List Bool × LimState
  | 0 => ([], st)
  | n + 1 =>
    let r := Allow cfg e st now
    let rest := allowN cfg e r.2 now n
    (r.1 :: rest.1, rest.2)

/-- Sequential `Allow` calls at the given instants, final state only. -/
def allowFold (cfg : Config) (e : ErrFlags) : LimState → List Int → LimState
  | st, [] => st
  | st, t :: ts => allowFold cfg e (Allow cfg e st t).2 ts

/-- The store state of a fresh identifier after `k` immediately successive
allowed calls at instant `now` (each one refilled nothing, consumed one token
and bumped the current window counter). -/
def burstState (cfg : Config) (now : Int) (k : Int) : LimState :=
  { bucket := ⟨some (.vint (cfg.bucketCapacity - k)), some (.vint now)⟩
    tokensTTL := some twoHoursNs, refillTTL := some twoHoursNs
    swc := [(swcKeyEpoch cfg now, .vint k)]
    swcTTL := [(swcKeyEpoch cfg now, cfg.swcWindow + minuteNs)] }

/-- The token-count invariant of the spec: whatever integer is persisted
under the token key lies in `[0, capacity]` (a missing key reads as a full
bucket). -/
def tokensInRange (cfg : Config) (b : BucketState) : Prop :=
  ∀ n, b.tokens = some (.vint n) → 0 ≤ n ∧ n ≤ cfg.bucketCapacity

/-- Well-formed bucket state at time `t`: both keys are missing (lazy
initial) or hold integers, the token count is within `[0, capacity]` and the
refill timestamp does not lie in the future. -/
def bucketInv (cfg : Config) (b : BucketState) (t : Int) : Prop :=
  (b.tokens = none ∨ ∃ n, b.tokens = some (.vint n) ∧ 0 ≤ n ∧ n ≤ cfg.bucketCapacity) ∧
  (b.lastRefill = none ∨ ∃ ts, b.lastRefill = some (.vint ts) ∧ ts ≤ t)

/-- The sliding-window estimate as the specification words it:
`floor(previousCount * overlap) + currentCount` with
`overlap = 1 - (now - currentEpochStart) / windowDuration` computed exactly
over the rationals, the previous counter read under the key for
`now - windowDuration` and a missing counter read as 0. -/
def swcEstimateSpec (cfg : Config) (swc : KVMap) (now : Int) : Int :=
  ⌊(readInt64 (lookupKV swc (swcKeyEpoch cfg (now - cfg.swcWindow))) : ℚ) *
      (1 - ((now - truncateTime now cfg.swcWindow : Int) : ℚ) / (cfg.swcWindow : ℚ))⌋ +
    readInt64 (lookupKV swc (swcKeyEpoch cfg now))

/-- `HealthData` of pkg/health: CPU utilization, P95 latency in
milliseconds, error rate.  The Go float64 fields are modelled as exact
rationals. -/
structure HealthData where
  CPUUtilization : ℚ
  P95LatencyMs : ℚ
  ErrorRate : ℚ

/-- The three-way minimum helper of monitor.go (named `min` in the source),
written with the same comparison chain. -/
def min3 (a b c : ℚ) : ℚ :=
  let m := a
  let m := if b < m then b else m
  let m := if c < m then c else m
  m

/-- `calculateFactor` of monitor.go: one factor per metric
(`target / current`), take the most stressed one, cap at 1.0 and floor at
0.1.  Float64 arithmetic is modelled as exact rational arithmetic. -/
def calculateFactor (data : HealthData) : ℚ :=
  let TargetCPU : ℚ := 7/10
  let TargetLatency : ℚ := 500
  let TargetErrorRate : ℚ := 1/100
  let cpuFactor := TargetCPU / data.CPUUtilization
  let latencyFactor := TargetLatency / data.P95LatencyMs
  let errorFactor := TargetErrorRate / data.ErrorRate
  let factor := min3 cpuFactor latencyFactor errorFactor
  if factor > 1 then 1
  else if factor < 1/10 then 1/10
  else factor

/-! ## Helper lemmas -/

/-- Go's truncated `int64` division agrees with floor division on a
non-negative dividend and non-negative divisor. -/
theorem tdiv_eq_fdiv_of_nonneg {a b : Int} (ha : 0 ≤ a) (hb : 0 ≤ b) :
    Int.tdiv a b = Int.fdiv a b := by
  rw [Int.tdiv_eq_ediv ha hb, Int.fdiv_eq_ediv _ hb]

/-- Within a positive window, the elapsed time past the truncated window
start is in `[0, d)`. -/
theorem elapsed_in_window_bounds (t d : Int) (hd : 0 < d) :
    0 ≤ t - truncateTime t d ∧ t - truncateTime t d < d := by
  unfold truncateTime
  rw [if_neg (by omega), Int.fdiv_eq_ediv _ hd.le]
  have h1 := Int.ediv_add_emod (t + unixToInternalNs) d
  have h2 := Int.emod_nonneg (t + unixToInternalNs) (by omega : d ≠ 0)
  have h3 := Int.emod_lt_of_pos (t + unixToInternalNs) hd
  omega

/-- Truncation commutes with stepping back one whole window. -/
theorem truncateTime_sub_self (t d : Int) (hd : 0 < d) :
    truncateTime (t - d) d = truncateTime t d - d := by
  unfold truncateTime
  rw [if_neg (by omega), if_neg (by omega), Int.fdiv_eq_ediv _ hd.le,
    Int.fdiv_eq_ediv _ hd.le]
  have h : t - d + unixToInternalNs = t + unixToInternalNs + -1 * d := by ring
  rw [h, Int.add_mul_ediv_right _ _ (by omega : d ≠ 0)]
  ring

/-- For a window of at least one second, the previous window's counter key
differs from the current one (keys carry the window start in whole Unix
seconds). -/
theorem swcKeyEpoch_prev_ne (cfg : Config) (t : Int)
    (hw : nsPerSecond ≤ cfg.swcWindow) :
    swcKeyEpoch cfg (t - cfg.swcWindow) ≠ swcKeyEpoch cfg t := by
  have hsec : nsPerSecond = 1000000000 := rfl
  have hd : 0 < cfg.swcWindow := by omega
  unfold swcKeyEpoch
  rw [truncateTime_sub_self t cfg.swcWindow hd]
  unfold unixSec
  rw [hsec] at hw ⊢
  rw [Int.fdiv_eq_ediv _ (by omega), Int.fdiv_eq_ediv _ (by omega)]
  have mono : (truncateTime t cfg.swcWindow - cfg.swcWindow) / 1000000000 ≤
      (truncateTime t cfg.swcWindow - 1000000000) / 1000000000 :=
    Int.ediv_le_ediv (by omega) (by omega)
  have step : (truncateTime t cfg.swcWindow - 1000000000) / 1000000000 =
      truncateTime t cfg.swcWindow / 1000000000 - 1 := by
    have h : truncateTime t cfg.swcWindow - 1000000000 =
        truncateTime t cfg.swcWindow + -1 * 1000000000 := by ring
    rw [h, Int.add_mul_ediv_right _ _ (by omega)]
    omega
  omega

/-! ## Claim theorems -/

/-- Claim C9: refill is idempotent at zero elapsed time.  For a persisted
bucket state `(tokens, lastRefillInstant)` with `0 ≤ tokens ≤ capacity`,
round-tripped through the store's integer format, re-running refill at a
time `now` with `0 ≤ now - lastRefillInstant < refillPeriod` persists the
identical pair and returns `tokens`. -/
theorem refillBucket_idempotent_at_zero_elapsed (cfg : Config) (t ts now : Int)
    (h0 : 0 ≤ t) (hcap : t ≤ cfg.bucketCapacity)
    (h1 : 0 ≤ now - ts) (h2 : now - ts < cfg.refillRate) :
    refillBucket cfg ⟨some (.vint t), some (.vint ts)⟩ now false false =
      some (t, ⟨some (.vint t), some (.vint ts)⟩) := by
  have hdiv : Int.tdiv (now - ts) cfg.refillRate = 0 := by
    rw [Int.tdiv_eq_ediv h1 (by omega)]
    exact Int.ediv_eq_zero_of_lt h1 h2
  simp [refillBucket, readInt64, hdiv]
  omega

/-- Witness for C9 at a concrete state: tokens 3, refill instant 2 s, read
at 7 s with a 6 s refill period. -/
theorem refillBucket_idempotent_at_zero_elapsed_witness :
    (0 : Int) ≤ 3 ∧ (3 : Int) ≤ defaultConfig.bucketCapacity ∧
    (0 : Int) ≤ 7000000000 - 2000000000 ∧
    (7000000000 - 2000000000 : Int) < defaultConfig.refillRate ∧
    refillBucket defaultConfig ⟨some (.vint 3), some (.vint 2000000000)⟩ 7000000000 false false =
      some (3, ⟨some (.vint 3), some (.vint 2000000000)⟩) :=
  ⟨by decide, by decide, by decide, by decide,
    refillBucket_idempotent_at_zero_elapsed defaultConfig 3 2000000000 7000000000
      (by decide) (by decide) (by decide) (by decide)⟩

/-- Claim C4, counterexample: a token-count value that exists but does not
parse is NOT treated like a missing key.  With capacity 10, a malformed
token value parses as 0, so refill at zero elapsed time returns 0 and not
the lazy-initial `capacity`. -/
theorem refillBucket_malformed_not_like_missing :
    refillBucket defaultConfig ⟨some .vbad, some (.vint 0)⟩ 0 false false ≠
      refillBucket defaultConfig ⟨none, some (.vint 0)⟩ 0 false false := by
  decide

/-- Claim C4, amended: a stored value that does not parse as an integer is
read as 0 (for the token key: an empty bucket; for the timestamp key: the
Unix epoch), not as the lazy-initial value of a missing key; in all cases
the call is never fatal (no injected store error makes refill report one). -/
theorem refillBucket_malformed_reads_zero (cfg : Config) (st : BucketState) (now : Int) :
    (refillBucket cfg st now false false).isSome = true ∧
    (st.tokens = some .vbad →
      refillBucket cfg st now false false =
        refillBucket cfg ⟨some (.vint 0), st.lastRefill⟩ now false false) ∧
    (st.lastRefill = some .vbad →
      refillBucket cfg st now false false =
        refillBucket cfg ⟨st.tokens, some (.vint 0)⟩ now false false) := by
  refine ⟨by simp [refillBucket], ?_, ?_⟩ <;>
    · intro h
      simp [refillBucket, h, readInt64]

/-- Witness for C4's amended theorem at a concrete malformed state. -/
theorem refillBucket_malformed_reads_zero_witness :
    (refillBucket defaultConfig ⟨some .vbad, some (.vint 5)⟩ 3 false false).isSome = true ∧
    refillBucket defaultConfig ⟨some .vbad, some (.vint 5)⟩ 3 false false =
      refillBucket defaultConfig ⟨some (.vint 0), some (.vint 5)⟩ 3 false false :=
  ⟨(refillBucket_malformed_reads_zero defaultConfig ⟨some .vbad, some (.vint 5)⟩ 3).1,
    (refillBucket_malformed_reads_zero defaultConfig ⟨some .vbad, some (.vint 5)⟩ 3).2.1 rfl⟩

/-- The source's clamp (`if newTokens > capacity { newTokens = capacity }`)
is `min capacity`. -/
theorem clamp_eq_min (cap x : Int) : (if x > cap then cap else x) = min cap x := by
  rw [min_def]; split_ifs <;> omega

/-- Claim C2: for every stored bucket state read at time `now` (missing
token key read as `capacity`, missing timestamp key read as `now`), refill
computes `tokensToAdd = floor(elapsed / refillPeriod)` by integer division,
persists `min(capacity, tokens + tokensToAdd)` and
`lastRefillInstant + tokensToAdd * refillPeriod`, and returns the new count
before any consumption. -/
theorem refillBucket_formula (cfg : Config) (tokOpt tsOpt : Option Int) (now : Int)
    (hrate : 0 < cfg.refillRate) (hts : tsOpt.getD now ≤ now) :
    refillBucket cfg ⟨tokOpt.map Val.vint, tsOpt.map Val.vint⟩ now false false =
      some (min cfg.bucketCapacity
          (tokOpt.getD cfg.bucketCapacity +
            Int.fdiv (now - tsOpt.getD now) cfg.refillRate),
        ⟨some (.vint (min cfg.bucketCapacity
            (tokOpt.getD cfg.bucketCapacity +
              Int.fdiv (now - tsOpt.getD now) cfg.refillRate))),
         some (.vint (tsOpt.getD now +
            Int.fdiv (now - tsOpt.getD now) cfg.refillRate * cfg.refillRate))⟩) := by
  have hfd : Int.tdiv (now - tsOpt.getD now) cfg.refillRate
      = Int.fdiv (now - tsOpt.getD now) cfg.refillRate :=
    tdiv_eq_fdiv_of_nonneg (by omega) hrate.le
  cases tokOpt <;> cases tsOpt <;>
    simp only [Option.getD_none, Option.getD_some] at hts hfd ⊢ <;>
    simp [refillBucket, readInt64, hfd, clamp_eq_min] <;>
    (try (split_ifs <;> omega))

/-- Witness for C2: tokens 3 refilled for 13 s at one token per 6 s gives
`min(10, 3 + 2) = 5` and advances the refill instant by exactly 12 s. -/
theorem refillBucket_formula_witness :
    (0 : Int) < defaultConfig.refillRate ∧
    (Option.getD (some (1000000000 : Int)) 14000000000 ≤ (14000000000 : Int)) ∧
    refillBucket defaultConfig
        ⟨Option.map Val.vint (some 3), Option.map Val.vint (some 1000000000)⟩
        14000000000 false false =
      some (5, ⟨some (.vint 5), some (.vint 13000000000)⟩) :=
  ⟨by decide, by decide, by
    have h := refillBucket_formula defaultConfig (some 3) (some 1000000000) 14000000000
      (by decide) (by decide)
    simpa using h⟩

/-- Claim C5: when refill succeeds with at least one token but the window
estimate reaches the limit, `Allow` returns `false` and the only state
change is what refill already persisted — the token counter is not
decremented, no window counter is incremented and no window expiration is
touched. -/
theorem window_denial_preserves_tokens (cfg : Config) (st : LimState) (now : Int)
    (tok : Int) (bkt : BucketState)
    (hrefill : refillBucket cfg st.bucket now false false = some (tok, bkt))
    (htok : 1 ≤ tok)
    (hest : cfg.swcLimit ≤ swcEstimate cfg st.swc now) :
    Allow cfg noErr st now =
      (false, { st with bucket := bkt
                        tokensTTL := some twoHoursNs, refillTTL := some twoHoursNs }) := by
  have h1 : ¬ tok < 1 := by omega
  have h2 : ¬ swcEstimate cfg st.swc now < cfg.swcLimit := by omega
  unfold Allow
  rw [show noErr.tbRead = false from rfl, show noErr.tbWrite = false from rfl] at *
  rw [hrefill]
  simp [noErr, h1, h2]

/-- Witness for C5: a fresh bucket (10 tokens) with the current window
counter already at the limit of 100 is denied and keeps its 10 tokens. -/
theorem window_denial_preserves_tokens_witness :
    refillBucket defaultConfig freshState.bucket 0 false false =
      some (10, ⟨some (.vint 10), some (.vint 0)⟩) ∧
    (1 : Int) ≤ 10 ∧
    defaultConfig.swcLimit ≤ swcEstimate defaultConfig
      [(swcKeyEpoch defaultConfig 0, .vint 100)] 0 ∧
    Allow defaultConfig noErr
        { freshState with swc := [(swcKeyEpoch defaultConfig 0, .vint 100)] } 0 =
      (false, { bucket := ⟨some (.vint 10), some (.vint 0)⟩
                tokensTTL := some twoHoursNs, refillTTL := some twoHoursNs
                swc := [(swcKeyEpoch defaultConfig 0, .vint 100)], swcTTL := [] }) :=
  ⟨by decide, by decide, by decide,
    window_denial_preserves_tokens defaultConfig
      { freshState with swc := [(swcKeyEpoch defaultConfig 0, .vint 100)] } 0
      10 ⟨some (.vint 10), some (.vint 0)⟩ (by decide) (by decide) (by decide)⟩

/-- Claim C3: any erroring store round-trip inside `Allow` makes the call
fail open (`true`) with no further state mutation: an error on the bucket
read or bucket write leaves the whole state untouched, and an error on the
window-counter read leaves everything except refill's own already-persisted
write untouched — no decrement, no increment, no expiration reset. -/
theorem allow_fails_open_on_store_error (cfg : Config) (e : ErrFlags)
    (st : LimState) (now : Int) :
    (e.tbRead = true → Allow cfg e st now = (true, st)) ∧
    (e.tbRead = false → e.tbWrite = true → Allow cfg e st now = (true, st)) ∧
    (e.tbRead = false → e.tbWrite = false → e.swcRead = true →
      ∀ tok bkt, refillBucket cfg st.bucket now false false = some (tok, bkt) →
        1 ≤ tok →
        Allow cfg e st now =
          (true, { st with bucket := bkt
                           tokensTTL := some twoHoursNs
                           refillTTL := some twoHoursNs })) := by
  obtain ⟨r, w, s⟩ := e
  refine ⟨?_, ?_, ?_⟩
  · intro h
    subst h
    simp [Allow, refillBucket]
  · intro h1 h2
    subst h1; subst h2
    simp [Allow, refillBucket]
  · intro h1 h2 h3 tok bkt hrefill htok
    subst h1; subst h2; subst h3
    unfold Allow
    rw [hrefill]
    simp [show ¬ tok < 1 by omega]

/-- Witness for C3: all three error sites exercised at concrete states. -/
theorem allow_fails_open_on_store_error_witness :
    Allow defaultConfig ⟨true, false, false⟩ freshState 0 = (true, freshState) ∧
    Allow defaultConfig ⟨false, true, false⟩ freshState 0 = (true, freshState) ∧
    Allow defaultConfig ⟨false, false, true⟩ freshState 0 =
      (true, { freshState with bucket := ⟨some (.vint 10), some (.vint 0)⟩
                               tokensTTL := some twoHoursNs
                               refillTTL := some twoHoursNs }) :=
  ⟨(allow_fails_open_on_store_error defaultConfig ⟨true, false, false⟩ freshState 0).1 rfl,
   (allow_fails_open_on_store_error defaultConfig ⟨false, true, false⟩ freshState 0).2.1 rfl rfl,
   (allow_fails_open_on_store_error defaultConfig ⟨false, false, true⟩ freshState 0).2.2 rfl rfl rfl
     10 ⟨some (.vint 10), some (.vint 0)⟩ (by decide) (by decide)⟩

/-- Floor of an exact integer quotient over ℚ is Euclidean division by a
positive divisor. -/
theorem floor_intCast_div_intCast (a b : Int) (hb : 0 < b) :
    ⌊(a : ℚ) / (b : ℚ)⌋ = a / b := by
  have h := Rat.floor_intCast_div_natCast a b.toNat
  have hb1 : ((b.toNat : ℕ) : ℚ) = (b : ℚ) := by
    norm_cast
    omega
  have hb2 : ((b.toNat : ℕ) : ℤ) = b := Int.toNat_of_nonneg hb.le
  rw [hb1, hb2] at h
  exact h

/-- Claim C7: for a positive window and a non-negative previous counter, the
estimate computed inside `Allow` equals the specification's
`floor(previousCount * overlap) + currentCount` with
`overlap = 1 - (now - currentEpochStart)/windowDuration`, the previous
counter read under the key for `now - windowDuration` and missing counters
read as 0 (`swcEstimateSpec` spells out exactly those words). -/
theorem swcEstimate_eq_spec (cfg : Config) (swc : KVMap) (now : Int)
    (hw : 0 < cfg.swcWindow)
    (hprev : 0 ≤ readInt64 (lookupKV swc (swcKeyEpoch cfg (now - cfg.swcWindow)))) :
    swcEstimate cfg swc now = swcEstimateSpec cfg swc now := by
  obtain ⟨he0, he1⟩ := elapsed_in_window_bounds now cfg.swcWindow hw
  have hwq : (0 : ℚ) < (cfg.swcWindow : ℚ) := by exact_mod_cast hw
  simp only [swcEstimate, swcEstimateSpec]
  congr 1
  have hprod : (0 : Int) ≤ readInt64 (lookupKV swc (swcKeyEpoch cfg (now - cfg.swcWindow)))
      * (cfg.swcWindow - (now - truncateTime now cfg.swcWindow)) :=
    mul_nonneg hprev (by omega)
  rw [Int.tdiv_eq_ediv hprod hw.le]
  rw [show ((readInt64 (lookupKV swc (swcKeyEpoch cfg (now - cfg.swcWindow))) : ℚ) *
        (1 - ((now - truncateTime now cfg.swcWindow : Int) : ℚ) / (cfg.swcWindow : ℚ))) =
      ((readInt64 (lookupKV swc (swcKeyEpoch cfg (now - cfg.swcWindow)))
          * (cfg.swcWindow - (now - truncateTime now cfg.swcWindow)) : Int) : ℚ) /
        (cfg.swcWindow : ℚ) by
    push_cast
    field_simp
    try ring]
  rw [floor_intCast_div_intCast _ _ hw]

/-- Witness for C7: 90 minutes into the Unix epoch (half of the second
hour-long window gone), previous counter 7, current counter 3: the code's
estimate and the spec formula both give `floor(7 * 1/2) + 3 = 6`. -/
theorem swcEstimate_eq_spec_witness :
    (0 : Int) < defaultConfig.swcWindow ∧
    (0 : Int) ≤ readInt64 (lookupKV [(0, .vint 7), (3600, .vint 3)]
      (swcKeyEpoch defaultConfig (5400000000000 - defaultConfig.swcWindow))) ∧
    swcEstimate defaultConfig [(0, .vint 7), (3600, .vint 3)] 5400000000000 =
      swcEstimateSpec defaultConfig [(0, .vint 7), (3600, .vint 3)] 5400000000000 ∧
    swcEstimate defaultConfig [(0, .vint 7), (3600, .vint 3)] 5400000000000 = 6 :=
  ⟨by decide, by decide,
    swcEstimate_eq_spec defaultConfig [(0, .vint 7), (3600, .vint 3)] 5400000000000
      (by decide) (by decide), by decide⟩

/-- The source's chained two-comparison minimum is the minimum of the three
arguments. -/
theorem min3_eq_min (a b c : ℚ) : min3 a b c = min a (min b c) := by
  simp only [min3]
  split_ifs <;> rw [min_def, min_def] <;> split_ifs <;> linarith

/-- The source's cap-then-floor conditional is a clamp to `[1/10, 1]`. -/
theorem clampQ_eq (f : ℚ) :
    (if f > 1 then (1 : ℚ) else if f < 1/10 then 1/10 else f) =
      max (1/10) (min 1 f) := by
  split_ifs <;> rw [max_def, min_def] <;> split_ifs <;> linarith

/-- Claim C10: for positive health metrics, `calculateFactor` returns
`min(0.70/CPU, 500/P95Latency, 0.01/ErrorRate)` clamped into `[0.1, 1.0]`,
and in particular the result always lies in that closed interval. -/
theorem calculateFactor_clamped_min (data : HealthData)
    (hcpu : 0 < data.CPUUtilization) (hlat : 0 < data.P95LatencyMs)
    (herr : 0 < data.ErrorRate) :
    calculateFactor data =
      max (1/10) (min 1 (min (7/10 / data.CPUUtilization)
        (min (500 / data.P95LatencyMs) (1/100 / data.ErrorRate)))) ∧
    1/10 ≤ calculateFactor data ∧ calculateFactor data ≤ 1 := by
  have hid : calculateFactor data =
      max (1/10) (min 1 (min (7/10 / data.CPUUtilization)
        (min (500 / data.P95LatencyMs) (1/100 / data.ErrorRate)))) := by
    simp only [calculateFactor, min3_eq_min]
    exact clampQ_eq _
  refine ⟨hid, ?_, ?_⟩
  · rw [hid]
    exact le_max_left _ _
  · rw [hid]
    exact max_le (by norm_num) (min_le_left _ _)

/-- Witness for C10 at CPU 700%, latency 1000 ms, error rate 100%: the raw
minimum `1/100` is floored to `1/10`. -/
theorem calculateFactor_clamped_min_witness :
    (0 : ℚ) < 7 ∧ (0 : ℚ) < 1000 ∧ (0 : ℚ) < 1 ∧
    (calculateFactor ⟨7, 1000, 1⟩ =
      max (1/10) (min 1 (min (7/10 / 7) (min (500 / 1000) (1/100 / 1)))) ∧
    1/10 ≤ calculateFactor ⟨7, 1000, 1⟩ ∧ calculateFactor ⟨7, 1000, 1⟩ ≤ 1) :=
  ⟨by norm_num, by norm_num, by norm_num,
    calculateFactor_clamped_min ⟨7, 1000, 1⟩ (by norm_num) (by norm_num) (by norm_num)⟩

/-- With only the current window's entry present, the estimate is exactly
the current counter (the previous key misses, for windows of at least one
second). -/
theorem swcEstimate_current_only (cfg : Config) (k t : Int)
    (hw : nsPerSecond ≤ cfg.swcWindow) :
    swcEstimate cfg [(swcKeyEpoch cfg t, .vint k)] t = k := by
  have hne : swcKeyEpoch cfg t ≠ swcKeyEpoch cfg (t - cfg.swcWindow) :=
    (swcKeyEpoch_prev_ne cfg t hw).symm
  simp [swcEstimate, lookupKV, hne, readInt64, Int.zero_tdiv]

/-- The estimate over a single stored counter entry is bounded by that
counter, whichever window the entry belongs to. -/
theorem swcEstimate_single_le (cfg : Config) (k0 c t : Int)
    (hw : nsPerSecond ≤ cfg.swcWindow) (hc : 0 ≤ c) :
    swcEstimate cfg [(k0, .vint c)] t ≤ c := by
  have hsec : nsPerSecond = 1000000000 := rfl
  have hd : 0 < cfg.swcWindow := by omega
  obtain ⟨he0, he1⟩ := elapsed_in_window_bounds t cfg.swcWindow hd
  have hne := swcKeyEpoch_prev_ne cfg t hw
  have hne' : ¬ swcKeyEpoch cfg t = swcKeyEpoch cfg (t - cfg.swcWindow) :=
    fun h => hne h.symm
  by_cases hcur : k0 = swcKeyEpoch cfg t
  · simp [swcEstimate, lookupKV, hcur, hne', readInt64, Int.zero_tdiv]
  · by_cases hpv : k0 = swcKeyEpoch cfg (t - cfg.swcWindow)
    · simp only [swcEstimate, lookupKV, if_pos hpv, if_neg hcur, readInt64, add_zero]
      have h2 : 0 ≤ c * (cfg.swcWindow - (t - truncateTime t cfg.swcWindow)) :=
        mul_nonneg hc (by omega)
      rw [Int.tdiv_eq_ediv h2 hd.le]
      calc c * (cfg.swcWindow - (t - truncateTime t cfg.swcWindow)) / cfg.swcWindow
          ≤ c * cfg.swcWindow / cfg.swcWindow :=
            Int.ediv_le_ediv hd (mul_le_mul_of_nonneg_left (by omega) hc)
        _ = c := Int.mul_ediv_cancel _ (by omega)
    · simp [swcEstimate, lookupKV, hcur, hpv, readInt64, Int.zero_tdiv, hc]

/-- Refill returns the stored count unchanged when the stored refill instant
is the current instant. -/
theorem refillBucket_zero_elapsed (cfg : Config) (c now : Int)
    (hc : c ≤ cfg.bucketCapacity) :
    refillBucket cfg ⟨some (.vint c), some (.vint now)⟩ now false false =
      some (c, ⟨some (.vint c), some (.vint now)⟩) := by
  have hdiv : Int.tdiv (now - now) cfg.refillRate = 0 := by
    rw [sub_self]
    exact Int.zero_tdiv _
  simp [refillBucket, readInt64, hdiv]
  omega

/-- First call of a fresh identifier: allowed, leaving the one-call burst
state. -/
theorem allow_fresh_first (cfg : Config) (now : Int)
    (hcap : 1 ≤ cfg.bucketCapacity) (hlim : cfg.bucketCapacity ≤ cfg.swcLimit)
    (hw : nsPerSecond ≤ cfg.swcWindow) :
    Allow cfg noErr freshState now = (true, burstState cfg now 1) := by
  have hdiv : Int.tdiv (now - now) cfg.refillRate = 0 := by
    rw [sub_self]
    exact Int.zero_tdiv _
  have hrefill : refillBucket cfg freshState.bucket now false false =
      some (cfg.bucketCapacity,
        ⟨some (.vint cfg.bucketCapacity), some (.vint now)⟩) := by
    simp [refillBucket, freshState, readInt64, hdiv]
  have hest : swcEstimate cfg [] now = 0 := by
    simp [swcEstimate, lookupKV, readInt64, Int.zero_tdiv]
  unfold Allow
  rw [show noErr.tbRead = false from rfl, show noErr.tbWrite = false from rfl, hrefill]
  simp [noErr, hest, show ¬ cfg.bucketCapacity < 1 by omega,
    show (0 : Int) < cfg.swcLimit by omega, burstState, decrTokens, incrKV,
    lookupKV, setKV, setTTL, freshState]

/-- One more allowed call while tokens remain: `burstState k` steps to
`burstState (k+1)`. -/
theorem allow_burst_step (cfg : Config) (now k : Int)
    (h0 : 0 ≤ k) (hk : k < cfg.bucketCapacity)
    (hlim : cfg.bucketCapacity ≤ cfg.swcLimit) (hw : nsPerSecond ≤ cfg.swcWindow) :
    Allow cfg noErr (burstState cfg now k) now = (true, burstState cfg now (k + 1)) := by
  have hrefill := refillBucket_zero_elapsed cfg (cfg.bucketCapacity - k) now (by omega)
  have hest := swcEstimate_current_only cfg k now hw
  unfold Allow
  rw [show noErr.tbRead = false from rfl, show noErr.tbWrite = false from rfl,
    show (burstState cfg now k).bucket =
      ⟨some (.vint (cfg.bucketCapacity - k)), some (.vint now)⟩ from rfl, hrefill]
  simp only [burstState] at hest
  simp [noErr, hest, show ¬ cfg.bucketCapacity - k < 1 by omega,
    show k < cfg.swcLimit by omega, burstState, decrTokens, incrKV, lookupKV, setKV,
    setTTL]
  omega

/-- A call on the exhausted burst state is denied and leaves the state
unchanged. -/
theorem allow_burst_exhausted (cfg : Config) (now : Int)
    (hcap : 0 ≤ cfg.bucketCapacity) :
    Allow cfg noErr (burstState cfg now cfg.bucketCapacity) now =
      (false, burstState cfg now cfg.bucketCapacity) := by
  have hrefill := refillBucket_zero_elapsed cfg
    (cfg.bucketCapacity - cfg.bucketCapacity) now (by omega)
  unfold Allow
  rw [show noErr.tbRead = false from rfl, show noErr.tbWrite = false from rfl,
    show (burstState cfg now cfg.bucketCapacity).bucket =
      ⟨some (.vint (cfg.bucketCapacity - cfg.bucketCapacity)), some (.vint now)⟩ from rfl,
    hrefill]
  simp [burstState, show cfg.bucketCapacity - cfg.bucketCapacity < 1 by omega]

/-- While tokens remain, `j` further immediate calls from `burstState k` are
all allowed and land on `burstState (k + j)`. -/
theorem allowN_burst (cfg : Config) (now : Int)
    (hlim : cfg.bucketCapacity ≤ cfg.swcLimit) (hw : nsPerSecond ≤ cfg.swcWindow)
    (j : Nat) : ∀ k : Int, 0 ≤ k → k + j ≤ cfg.bucketCapacity →
    allowN cfg noErr (burstState cfg now k) now j =
      (List.replicate j true, burstState cfg now (k + j)) := by
  induction j with
  | zero =>
    intro k h0 hj
    simp [allowN]
  | succ j ih =>
    intro k h0 hj
    have hk : k < cfg.bucketCapacity := by
      have : ((j : Nat) + 1 : ℤ) = (j : ℤ) + 1 := by push_cast; ring
      omega
    have hstep := allow_burst_step cfg now k h0 hk hlim hw
    have hrest := ih (k + 1) (by omega) (by push_cast at hj ⊢; omega)
    have harg : k + 1 + (j : ℤ) = k + ((j : Nat) + 1 : Nat) := by push_cast; ring
    simp only [allowN, hstep, hrest, harg]
    simp [List.replicate_succ]

/-- Once the bucket is exhausted, every further immediate call is denied
and the state is unchanged. -/
theorem allowN_exhausted (cfg : Config) (now : Int)
    (hcap : 0 ≤ cfg.bucketCapacity) (j : Nat) :
    allowN cfg noErr (burstState cfg now cfg.bucketCapacity) now j =
      (List.replicate j false, burstState cfg now cfg.bucketCapacity) := by
  induction j with
  | zero => simp [allowN]
  | succ j ih =>
    simp [allowN, allow_burst_exhausted cfg now hcap, ih, List.replicate_succ]

/-- Splitting a run of immediate calls. -/
theorem allowN_append (cfg : Config) (e : ErrFlags) (now : Int) (a b : Nat) :
    ∀ st : LimState, allowN cfg e st now (a + b) =
      ((allowN cfg e st now a).1 ++ (allowN cfg e (allowN cfg e st now a).2 now b).1,
        (allowN cfg e (allowN cfg e st now a).2 now b).2) := by
  induction a with
  | zero =>
    intro st
    simp [allowN]
  | succ a ih =>
    intro st
    rw [Nat.succ_add]
    simp only [allowN]
    rw [ih]
    simp

/-- Claim C1, amended (windows shorter than one second excluded, see the
counterexample): for any configuration with positive capacity and refill
period, a window of at least one second and `windowLimit ≥ capacity`, a
fresh identifier issued `n` immediate calls gets exactly
`min n capacity` `true` results followed by only `false`. -/
theorem fresh_identifier_gets_exactly_capacity_allows
    (cfg : Config) (now : Int) (n : Nat)
    (hcap : 1 ≤ cfg.bucketCapacity) (hlim : cfg.bucketCapacity ≤ cfg.swcLimit)
    (hrate : 0 < cfg.refillRate) (hw : nsPerSecond ≤ cfg.swcWindow) :
    (allowN cfg noErr freshState now n).1 =
      List.replicate (min n cfg.bucketCapacity.toNat) true ++
        List.replicate (n - cfg.bucketCapacity.toNat) false := by
  have hcast : (cfg.bucketCapacity.toNat : ℤ) = cfg.bucketCapacity :=
    Int.toNat_of_nonneg (by omega)
  have hcapN : 1 ≤ cfg.bucketCapacity.toNat := by omega
  cases n with
  | zero => simp [allowN]
  | succ m =>
    have h1 := allow_fresh_first cfg now hcap hlim hw
    by_cases hm : m + 1 ≤ cfg.bucketCapacity.toNat
    · have hburst := allowN_burst cfg now hlim hw m 1 (by omega)
        (by push_cast; omega)
      simp only [allowN, h1, hburst]
      rw [min_eq_left hm, Nat.sub_eq_zero_of_le hm]
      simp [List.replicate_succ]
    · obtain ⟨r, hrdef⟩ : ∃ r, m = (cfg.bucketCapacity.toNat - 1) + r :=
        ⟨m - (cfg.bucketCapacity.toNat - 1), by omega⟩
      subst hrdef
      have hburst := allowN_burst cfg now hlim hw (cfg.bucketCapacity.toNat - 1) 1
        (by omega) (by push_cast [Nat.cast_sub hcapN]; omega)
      have hfull : (1 : ℤ) + ((cfg.bucketCapacity.toNat - 1 : Nat) : ℤ) = cfg.bucketCapacity := by
        push_cast [Nat.cast_sub hcapN]
        omega
      rw [hfull] at hburst
      have hex := allowN_exhausted cfg now (by omega) r
      have hhead : true :: List.replicate (cfg.bucketCapacity.toNat - 1) true =
          List.replicate cfg.bucketCapacity.toNat true := by
        rw [← List.replicate_succ]
        congr 1
        omega
      simp only [allowN, h1, allowN_append, hburst, hex]
      rw [min_eq_right (by omega),
        show cfg.bucketCapacity.toNat - 1 + r + 1 - cfg.bucketCapacity.toNat = r by omega,
        ← List.cons_append, hhead]

/-- Witness for C1's amended theorem: the spec's concrete scenario.  With
the default configuration (capacity 10, window limit 100), twelve immediate
calls for a fresh identifier yield ten `true` then two `false`. -/
theorem fresh_identifier_gets_exactly_capacity_allows_witness :
    (1 : Int) ≤ defaultConfig.bucketCapacity ∧
    defaultConfig.bucketCapacity ≤ defaultConfig.swcLimit ∧
    (0 : Int) < defaultConfig.refillRate ∧
    nsPerSecond ≤ defaultConfig.swcWindow ∧
    (allowN defaultConfig noErr freshState 0 12).1 =
      List.replicate (min 12 defaultConfig.bucketCapacity.toNat) true ++
        List.replicate (12 - defaultConfig.bucketCapacity.toNat) false :=
  ⟨by decide, by decide, by decide, by decide,
    fresh_identifier_gets_exactly_capacity_allows defaultConfig 0 12
      (by decide) (by decide) (by decide) (by decide)⟩

/-- Claim C1, counterexample to the claim as stated: a configuration with
`windowLimit = capacity = 10` but a half-second window.  The window-counter
keys carry the window start in whole Unix seconds, so the previous-window
key of an instant half a second into a second coincides with the current
key; the counter then doubles into the estimate and the sixth call is
denied while five tokens remain — not `capacity` trues before the first
false. -/
theorem allowN_subsecond_window_denies_early :
    (⟨10, 6000000000, 10, 500000000⟩ : Config).bucketCapacity ≤
      (⟨10, 6000000000, 10, 500000000⟩ : Config).swcLimit ∧
    (allowN ⟨10, 6000000000, 10, 500000000⟩ noErr freshState 500000000 6).1 =
      [true, true, true, true, true, false] := by
  decide

/-- Issuing exactly `capacity` immediate calls from fresh exhausts the
bucket, landing on the exhausted burst state. -/
theorem allowN_fresh_exhausts (cfg : Config) (now : Int)
    (hcap : 1 ≤ cfg.bucketCapacity) (hlim : cfg.bucketCapacity ≤ cfg.swcLimit)
    (hw : nsPerSecond ≤ cfg.swcWindow) :
    (allowN cfg noErr freshState now cfg.bucketCapacity.toNat).2 =
      burstState cfg now cfg.bucketCapacity := by
  have hcast : (cfg.bucketCapacity.toNat : ℤ) = cfg.bucketCapacity :=
    Int.toNat_of_nonneg (by omega)
  obtain ⟨m, hm⟩ : ∃ m, cfg.bucketCapacity.toNat = m + 1 :=
    ⟨cfg.bucketCapacity.toNat - 1, by omega⟩
  have hmZ : ((m : ℕ) : ℤ) + 1 = cfg.bucketCapacity := by
    rw [hm] at hcast
    push_cast at hcast
    omega
  have h1 := allow_fresh_first cfg now hcap hlim hw
  have hburst := allowN_burst cfg now hlim hw m 1 (by omega) (by omega)
  rw [show (1 : ℤ) + (m : ℤ) = cfg.bucketCapacity by omega] at hburst
  rw [hm]
  simp only [allowN, h1, hburst]

/-- Claim C8: after the bucket of a fresh identifier is exhausted by
`capacity` immediate calls (window limit not binding), waiting between one
and two refill periods (e.g. 7 s at one token per 6 s) refills exactly one
token: the next call is allowed and the one immediately after it is
denied. -/
theorem one_token_after_one_refill_period (cfg : Config) (now d : Int)
    (hcap : 1 ≤ cfg.bucketCapacity) (hlim : cfg.bucketCapacity < cfg.swcLimit)
    (hrate : 0 < cfg.refillRate) (hw : nsPerSecond ≤ cfg.swcWindow)
    (hd1 : cfg.refillRate ≤ d) (hd2 : d < 2 * cfg.refillRate) :
    (Allow cfg noErr (allowN cfg noErr freshState now cfg.bucketCapacity.toNat).2
        (now + d)).1 = true ∧
    (Allow cfg noErr
        (Allow cfg noErr (allowN cfg noErr freshState now cfg.bucketCapacity.toNat).2
          (now + d)).2 (now + d)).1 = false := by
  rw [allowN_fresh_exhausts cfg now hcap (le_of_lt hlim) hw]
  have hdiv1 : Int.tdiv d cfg.refillRate = 1 := by
    rw [Int.tdiv_eq_ediv (by omega) (by omega),
      show d = (d - cfg.refillRate) + 1 * cfg.refillRate by ring,
      Int.add_mul_ediv_right _ _ (by omega : cfg.refillRate ≠ 0),
      Int.ediv_eq_zero_of_lt (by omega) (by omega)]
    omega
  have hrefill13 : refillBucket cfg
      ⟨some (.vint (cfg.bucketCapacity - cfg.bucketCapacity)), some (.vint now)⟩
      (now + d) false false =
      some (1, ⟨some (.vint 1), some (.vint (now + cfg.refillRate))⟩) := by
    simp [refillBucket, readInt64, hdiv1]
    omega
  have hest : swcEstimate cfg [(swcKeyEpoch cfg now, .vint cfg.bucketCapacity)]
      (now + d) < cfg.swcLimit := by
    have h := swcEstimate_single_le cfg (swcKeyEpoch cfg now) cfg.bucketCapacity
      (now + d) hw (by omega)
    omega
  have hcall13 : Allow cfg noErr (burstState cfg now cfg.bucketCapacity) (now + d) =
      (true, ⟨⟨some (.vint 0), some (.vint (now + cfg.refillRate))⟩,
        some twoHoursNs, some twoHoursNs,
        incrKV [(swcKeyEpoch cfg now, .vint cfg.bucketCapacity)]
          (swcKeyEpoch cfg (now + d)),
        setTTL [(swcKeyEpoch cfg now, cfg.swcWindow + minuteNs)]
          (swcKeyEpoch cfg (now + d)) (cfg.swcWindow + minuteNs)⟩) := by
    unfold Allow
    rw [show noErr.tbRead = false from rfl, show noErr.tbWrite = false from rfl,
      show (burstState cfg now cfg.bucketCapacity).bucket =
        ⟨some (.vint (cfg.bucketCapacity - cfg.bucketCapacity)), some (.vint now)⟩ from rfl,
      hrefill13]
    simp only [burstState]
    simp [noErr, hest, decrTokens]
  have hdiv0 : Int.tdiv (d - cfg.refillRate) cfg.refillRate = 0 := by
    rw [Int.tdiv_eq_ediv (by omega) (by omega)]
    exact Int.ediv_eq_zero_of_lt (by omega) (by omega)
  have hrefill14 : refillBucket cfg
      ⟨some (.vint 0), some (.vint (now + cfg.refillRate))⟩ (now + d) false false =
      some (0, ⟨some (.vint 0), some (.vint (now + cfg.refillRate))⟩) := by
    simp [refillBucket, readInt64, hdiv0]
    omega
  refine ⟨by rw [hcall13], ?_⟩
  rw [hcall13]
  unfold Allow
  rw [show noErr.tbRead = false from rfl, show noErr.tbWrite = false from rfl]
  rw [show (⟨⟨some (.vint 0), some (.vint (now + cfg.refillRate))⟩,
      some twoHoursNs, some twoHoursNs,
      incrKV [(swcKeyEpoch cfg now, .vint cfg.bucketCapacity)]
        (swcKeyEpoch cfg (now + d)),
      setTTL [(swcKeyEpoch cfg now, cfg.swcWindow + minuteNs)]
        (swcKeyEpoch cfg (now + d)) (cfg.swcWindow + minuteNs)⟩ : LimState).bucket =
      ⟨some (.vint 0), some (.vint (now + cfg.refillRate))⟩ from rfl, hrefill14]
  simp

/-- Witness for C8: the spec's concrete scenario — default configuration,
bucket exhausted at time 0 by ten calls, 7 s sleep: call 13 is allowed,
call 14 is denied. -/
theorem one_token_after_one_refill_period_witness :
    (1 : Int) ≤ defaultConfig.bucketCapacity ∧
    defaultConfig.bucketCapacity < defaultConfig.swcLimit ∧
    (0 : Int) < defaultConfig.refillRate ∧
    nsPerSecond ≤ defaultConfig.swcWindow ∧
    defaultConfig.refillRate ≤ 7000000000 ∧
    (7000000000 : Int) < 2 * defaultConfig.refillRate ∧
    ((Allow defaultConfig noErr
        (allowN defaultConfig noErr freshState 0 defaultConfig.bucketCapacity.toNat).2
        (0 + 7000000000)).1 = true ∧
      (Allow defaultConfig noErr
        (Allow defaultConfig noErr
          (allowN defaultConfig noErr freshState 0 defaultConfig.bucketCapacity.toNat).2
          (0 + 7000000000)).2 (0 + 7000000000)).1 = false) :=
  ⟨by decide, by decide, by decide, by decide, by decide, by decide,
    one_token_after_one_refill_period defaultConfig 0 7000000000
      (by decide) (by decide) (by decide) (by decide) (by decide) (by decide)⟩

/-- A successful refill from a well-formed bucket state persists an integer
count in `[0, capacity]` and a timestamp not past `now`. -/
theorem refillBucket_inv (cfg : Config) (b : BucketState) (now : Int)
    (readErr writeErr : Bool) (tok : Int) (bkt : BucketState)
    (hcap : 0 ≤ cfg.bucketCapacity) (hrate : 0 < cfg.refillRate)
    (hinv : bucketInv cfg b now)
    (h : refillBucket cfg b now readErr writeErr = some (tok, bkt)) :
    0 ≤ tok ∧ tok ≤ cfg.bucketCapacity ∧
    ∃ ts, bkt = ⟨some (.vint tok), some (.vint ts)⟩ ∧ ts ≤ now := by
  obtain ⟨hts, htr⟩ := hinv
  unfold refillBucket at h
  by_cases hre : readErr = true
  · rw [if_pos hre] at h
    exact absurd h (by simp)
  · rw [if_neg hre] at h
    by_cases hwe : writeErr = true
    · rw [if_pos hwe] at h
      exact absurd h (by simp)
    · rw [if_neg hwe] at h
      have htok : 0 ≤ (if b.tokens.isNone then cfg.bucketCapacity else readInt64 b.tokens) ∧
          (if b.tokens.isNone then cfg.bucketCapacity else readInt64 b.tokens) ≤
            cfg.bucketCapacity := by
        rcases hts with h1 | ⟨n, h1, h2, h3⟩ <;> simp [h1, readInt64] <;> omega
      have hlast : (if b.lastRefill.isNone then now else readInt64 b.lastRefill) ≤ now := by
        rcases htr with h1 | ⟨ts, h1, h2⟩ <;> simp [h1, readInt64] <;> omega
      set cur := if b.tokens.isNone then cfg.bucketCapacity else readInt64 b.tokens with hcur
      set ts0 := if b.lastRefill.isNone then now else readInt64 b.lastRefill with hts0
      have hadd0 : 0 ≤ Int.tdiv (now - ts0) cfg.refillRate :=
        Int.tdiv_nonneg (by omega) hrate.le
      have haddle : Int.tdiv (now - ts0) cfg.refillRate * cfg.refillRate ≤ now - ts0 := by
        rw [Int.tdiv_eq_ediv (by omega) hrate.le]
        exact Int.ediv_mul_le _ (by omega)
      simp only [Option.some_inj, Prod.mk.injEq] at h
      obtain ⟨h4, h5⟩ := h
      refine ⟨?_, ?_, ts0 + Int.tdiv (now - ts0) cfg.refillRate * cfg.refillRate, ?_, ?_⟩
      · rw [← h4]
        split_ifs <;> omega
      · rw [← h4]
        split_ifs <;> omega
      · rw [← h5, ← h4]
      · omega

/-- One `Allow` call (with any injected store errors) preserves
well-formedness of the bucket state. -/
theorem allow_step_inv (cfg : Config) (e : ErrFlags) (st : LimState) (t : Int)
    (hcap : 0 ≤ cfg.bucketCapacity) (hrate : 0 < cfg.refillRate)
    (hinv : bucketInv cfg st.bucket t) :
    bucketInv cfg ((Allow cfg e st t).2).bucket t := by
  unfold Allow
  cases h : refillBucket cfg st.bucket t e.tbRead e.tbWrite with
  | none => exact hinv
  | some pair =>
    obtain ⟨tok, bkt⟩ := pair
    obtain ⟨h0, h1, ts, hbkt, hts⟩ :=
      refillBucket_inv cfg st.bucket t e.tbRead e.tbWrite tok bkt hcap hrate hinv h
    dsimp only
    by_cases htok : tok < 1
    · rw [if_pos htok]
      exact ⟨Or.inr ⟨tok, by rw [hbkt], h0, h1⟩, Or.inr ⟨ts, by rw [hbkt], hts⟩⟩
    · rw [if_neg htok]
      by_cases hs : e.swcRead
      · rw [if_pos hs]
        exact ⟨Or.inr ⟨tok, by rw [hbkt], h0, h1⟩, Or.inr ⟨ts, by rw [hbkt], hts⟩⟩
      · rw [if_neg hs]
        by_cases hest : swcEstimate cfg st.swc t < cfg.swcLimit
        · rw [if_pos hest]
          refine ⟨Or.inr ⟨tok - 1, ?_, by omega, by omega⟩, Or.inr ⟨ts, ?_, hts⟩⟩
          · rw [hbkt]
            rfl
          · rw [hbkt]
            rfl
        · rw [if_neg hest]
          exact ⟨Or.inr ⟨tok, by rw [hbkt], h0, h1⟩, Or.inr ⟨ts, by rw [hbkt], hts⟩⟩

/-- Well-formedness is monotone in the time bound. -/
theorem bucketInv_mono (cfg : Config) (b : BucketState) (t t' : Int)
    (h : bucketInv cfg b t) (htt : t ≤ t') : bucketInv cfg b t' := by
  obtain ⟨h1, h2⟩ := h
  refine ⟨h1, ?_⟩
  rcases h2 with h2 | ⟨ts, h2, h3⟩
  · exact Or.inl h2
  · exact Or.inr ⟨ts, h2, by omega⟩

/-- Claim C6: starting from any well-formed per-identifier bucket state with
`0 ≤ tokens ≤ capacity` (the lazy-initial missing state included), every
sequence of `Allow` calls at non-decreasing instants keeps the persisted
token count within `[0, capacity]`: refill clamps at capacity and the
decrement happens only when the refilled count is at least 1. -/
theorem allow_preserves_token_invariant (cfg : Config) (st : LimState)
    (t0 : Int) (times : List Int)
    (hcap : 0 ≤ cfg.bucketCapacity) (hrate : 0 < cfg.refillRate)
    (hinv : bucketInv cfg st.bucket t0)
    (hchain : List.Chain (fun a b => a ≤ b) t0 times) :
    tokensInRange cfg (allowFold cfg noErr st times).bucket := by
  induction times generalizing st t0 with
  | nil =>
    intro n hn
    rcases hinv.1 with h1 | ⟨m, h1, h2, h3⟩
    · rw [allowFold] at hn
      rw [h1] at hn
      exact absurd hn (by simp)
    · rw [allowFold] at hn
      rw [h1] at hn
      obtain rfl : m = n := by
        injection hn with hn'
        injection hn'
      omega
  | cons t ts ih =>
    rcases hchain with _ | ⟨hle, hchain'⟩
    have hinv' : bucketInv cfg st.bucket t := bucketInv_mono cfg st.bucket t0 t hinv hle
    have hstep := allow_step_inv cfg noErr st t hcap hrate hinv'
    rw [allowFold]
    exact ih (Allow cfg noErr st t).2 t hstep hchain'

/-- Witness for C6: a fresh identifier stepped at instants 0 s, 6 s, 7 s
under the default configuration keeps its persisted token count in
`[0, 10]`. -/
theorem allow_preserves_token_invariant_witness :
    (0 : Int) ≤ defaultConfig.bucketCapacity ∧
    (0 : Int) < defaultConfig.refillRate ∧
    tokensInRange defaultConfig
      (allowFold defaultConfig noErr freshState [0, 6000000000, 7000000000]).bucket :=
  ⟨by decide, by decide,
    allow_preserves_token_invariant defaultConfig freshState 0
      [0, 6000000000, 7000000000] (by decide) (by decide)
      ⟨Or.inl rfl, Or.inl rfl⟩
      (List.Chain.cons (by decide)
        (List.Chain.cons (by decide) (List.Chain.cons (by decide) List.Chain.nil)))⟩

end GoRateLimiter
